import Mathlib

/-!
Verification of `parse_pc80b_v5.py` (PC-80B .dat parser with artifact masking).

The development shallowly embeds the decoder and the artifact scan/mask loop of
`process_file`.  Raw bytes and decoded 16-bit samples are modelled as natural
numbers; the two floating-point computations of the source are modelled exactly:

* the comparisons `amp < 0.7 * min_signal` and `amp > 1.3 * max_signal`
  (IEEE-754 doubles in the source) coincide with the exact rational comparisons
  `10 * amp < 7 * min_signal` and `10 * amp > 13 * max_signal` for every
  amplitude and window extremum in `[0, 4096)`, which is the whole reachable
  domain (amplitudes are 12-bit), so the outlier test is embedded with exact
  integer arithmetic;
* `int(0.7 * min_signal)` truncates the double product `0.7 * min_signal`; this
  is embedded bit-exactly (`floor07`) by rounding the integer product
  `3152519739159347 * min_signal` (the significand of the double nearest `0.7`
  is `3152519739159347 / 2 ^ 52`) to 53 significant bits, nearest-ties-to-even,
  and then dividing by `2 ^ 52`.
-/

namespace PC80B

/-- Amplitude field of a raw sample: the lower 12 bits (`raw & 0x0FFF`). -/
def amp (v : ℕ) : ℕ := v &&& 0x0FFF

/-- Quality field of a raw sample: the upper 4 bits (`(raw >> 12) & 0x000F`). -/
def quality (v : ℕ) : ℕ := (v >>> 12) &&& 0x000F

/-- `np.frombuffer(tail, dtype="<u2")`: consecutive little-endian unsigned
16-bit words, one sample per byte pair; a trailing odd byte is dropped
(`if len(tail) % 2 != 0: tail = tail[:-1]`). -/
def pairsLE : List ℕ → List ℕ
  | lo :: hi :: rest => (lo + 256 * hi) :: pairsLE rest
  | _ => []

/-- The decoder part of `process_file`: drop the first `header_size` bytes
(`tail = data[header_size:]`), then read little-endian 16-bit words. -/
def decodeSamples (data : List ℕ) (header_size : ℕ) : List ℕ :=
  pairsLE (data.drop header_size)

/-- `np.min` over a sample window (the window is nonempty whenever the scan
loop body runs, so the default value for `[]` is never reached there). -/
def listMin : List ℕ → ℕ
  | [] => 0
  | x :: xs => xs.foldl Nat.min x

/-- `np.max` over a sample window. -/
def listMax : List ℕ → ℕ
  | [] => 0
  | x :: xs => xs.foldl Nat.max x

/-- The outlier test of the scan loop:
`(amp < low_thresh) | (amp > high_thresh)` with `low_thresh = 0.7 * min_signal`
and `high_thresh = 1.3 * max_signal`.  For every `a, mn, mx < 4096` the IEEE
double comparisons agree with these exact rational comparisons. -/
def isOutlier (mn mx a : ℕ) : Bool :=
  decide (10 * a < 7 * mn) || decide (13 * mx < 10 * a)

/-- Bit length of a natural number, by explicit fuel (enough fuel for every
number below `2 ^ fuel`); total and kernel-reducible. -/
def bitsAux : ℕ → ℕ → ℕ
  | 0, _ => 0
  | fuel + 1, n => if n = 0 then 0 else bitsAux fuel (n / 2) + 1

/-- Bit length for numbers below `2 ^ 64` (all products `c07 * mn` with
`mn < 4096` are below `2 ^ 64`). -/
def bits64 (n : ℕ) : ℕ := bitsAux 64 n

/-- The significand of the IEEE-754 double nearest `0.7`, scaled by `2 ^ 52`:
the double value of the literal `0.7` is `3152519739159347 / 2 ^ 52`. -/
def c07 : ℕ := 3152519739159347

/-- Round `N` to 53 significant bits, nearest, ties to even — the IEEE-754
rounding performed by the double multiplication `0.7 * min_signal`. -/
def round53 (N : ℕ) : ℕ :=
  let s := bits64 N - 53
  let q := N / 2 ^ s
  let r := N % 2 ^ s
  if 2 ^ s < 2 * r then (q + 1) * 2 ^ s
  else if 2 * r < 2 ^ s then q * 2 ^ s
  else (q + q % 2) * 2 ^ s

/-- `int(0.7 * min_signal)` under exact IEEE-754 double semantics:
truncation of the correctly rounded double product. -/
def floor07 (mn : ℕ) : ℕ := round53 (c07 * mn) / 2 ^ 52

/-- `replacement_value = int(0.7 * min_signal) & 0x0FFF`. -/
def replacement (mn : ℕ) : ℕ := floor07 mn &&& 0x0FFF

/-- One record of `zeroed_regions`: the tuple
`(first_outlier, end_idx, replacement_value)` appended by the scan loop. -/
structure MaskedInterval where
  start_sample : ℕ
  end_sample : ℕ
  replacement_value : ℕ
  deriving Repr, DecidableEq

/-- The slice assignment `samples[start:stop] = repl`: every position in
`[start, stop)` is overwritten with `repl`, all other positions are kept. -/
def maskRange : List ℕ → ℕ → ℕ → ℕ → List ℕ
  | [], _, _, _ => []
  | v :: rest, start, stop, repl =>
    (if start = 0 ∧ 0 < stop then repl else v) :: maskRange rest (start - 1) (stop - 1) repl

/-- The scan/mask `while` loop of `process_file`, with explicit fuel (`none`
means the fuel ran out before the loop exited; `process_file` supplies
`samples.length + 1`, which suffices whenever `0 < n`).

Per iteration, with `n = sample_rate * 20` and cursor `idx`:
take the amplitude window `samples[idx : idx + n] & 0x0FFF`, compute
`min_signal` / `max_signal`, find the first outlier at or after `idx + n`;
if none, exit returning the samples and regions; otherwise overwrite
`samples[first_outlier : end_idx]` with `replacement min_signal` where
`end_idx = min (first_outlier + region) samples.length`,
append the region record, and continue from `idx = end_idx`. -/
def scanLoop (n region : ℕ) :
    ℕ → ℕ → List ℕ → List MaskedInterval → Option (List ℕ × List MaskedInterval)
  | 0, _, _, _ => none
  | fuel + 1, idx, samples, acc =>
    if idx + n < samples.length then
      match (samples.drop (idx + n)).findIdx? (fun v =>
          isOutlier (listMin (((samples.drop idx).take n).map amp))
            (listMax (((samples.drop idx).take n).map amp)) (amp v)) with
      | none => some (samples, acc)
      | some j =>
        scanLoop n region fuel (min (idx + n + j + region) samples.length)
          (maskRange samples (idx + n + j) (min (idx + n + j + region) samples.length)
            (replacement (listMin (((samples.drop idx).take n).map amp))))
          (acc ++ [⟨idx + n + j, min (idx + n + j + region) samples.length,
            replacement (listMin (((samples.drop idx).take n).map amp))⟩])
    else some (samples, acc)

/-- The artifact scanner on an already decoded sample sequence: the scan loop
started at cursor `0` with an empty region list. -/
def scanSamples (samples : List ℕ) (n region : ℕ) :
    Option (List ℕ × List MaskedInterval) :=
  scanLoop n region (samples.length + 1) 0 samples []

/-- The core of `process_file`: decode, then scan and mask.
`n_per_20s = sample_rate * 20`, `region_samples = (header_size + trailer_size) // 2`. -/
def process_file (data : List ℕ) (header_size trailer_size sample_rate : ℕ) :
    Option (List ℕ × List MaskedInterval) :=
  scanSamples (decodeSamples data header_size) (sample_rate * 20)
    ((header_size + trailer_size) / 2)

/-! ## Basic lemmas about the embedded operations -/

theorem maskRange_length (l : List ℕ) :
    ∀ s t r, (maskRange l s t r).length = l.length := by
  induction l with
  | nil => intro s t r; rfl
  | cons v rest ih => intro s t r; simp [maskRange, ih]

theorem maskRange_getElem? (l : List ℕ) :
    ∀ s t r k, (maskRange l s t r)[k]? =
      if s ≤ k ∧ k < t ∧ k < l.length then some r else l[k]? := by
  induction l with
  | nil => intro s t r k; simp [maskRange]
  | cons v rest ih =>
    intro s t r k
    cases k with
    | zero =>
      simp only [maskRange, List.getElem?_cons_zero, List.length_cons]
      by_cases h : s = 0 ∧ 0 < t
      · rw [if_pos h, if_pos ⟨by omega, by omega, by omega⟩]
      · rw [if_neg h, if_neg (by omega)]
    | succ k =>
      simp only [maskRange, List.getElem?_cons_succ, List.length_cons]
      rw [ih (s - 1) (t - 1) r k]
      by_cases h : s ≤ k + 1 ∧ k + 1 < t ∧ k + 1 < rest.length + 1
      · rw [if_pos (by omega), if_pos h]
      · rw [if_neg (by omega), if_neg h]

theorem maskRange_getElem?_in {l : List ℕ} {s t k : ℕ} (r : ℕ)
    (h1 : s ≤ k) (h2 : k < t) (h3 : k < l.length) :
    (maskRange l s t r)[k]? = some r := by
  rw [maskRange_getElem?]; exact if_pos ⟨h1, h2, h3⟩

theorem maskRange_getElem?_out {l : List ℕ} {s t k : ℕ} (r : ℕ)
    (h : k < s ∨ t ≤ k) : (maskRange l s t r)[k]? = l[k]? := by
  rw [maskRange_getElem?]; exact if_neg (by omega)

theorem replacement_le (mn : ℕ) : replacement mn ≤ 4095 :=
  Nat.and_le_right

/-! ### Unfolding lemmas for one iteration of the scan loop -/

theorem scanLoop_exit {n region fuel idx : ℕ} {samples : List ℕ}
    {acc : List MaskedInterval} (h : ¬ idx + n < samples.length) :
    scanLoop n region (fuel + 1) idx samples acc = some (samples, acc) := by
  simp only [scanLoop]
  rw [if_neg h]

theorem scanLoop_no_outlier {n region fuel idx : ℕ} {samples : List ℕ}
    {acc : List MaskedInterval} (h : idx + n < samples.length)
    (hf : (samples.drop (idx + n)).findIdx? (fun v =>
        isOutlier (listMin (((samples.drop idx).take n).map amp))
          (listMax (((samples.drop idx).take n).map amp)) (amp v)) = none) :
    scanLoop n region (fuel + 1) idx samples acc = some (samples, acc) := by
  simp only [scanLoop]
  rw [if_pos h, hf]

theorem scanLoop_mask {n region fuel idx : ℕ} {samples : List ℕ}
    {acc : List MaskedInterval} {j : ℕ} (h : idx + n < samples.length)
    (hf : (samples.drop (idx + n)).findIdx? (fun v =>
        isOutlier (listMin (((samples.drop idx).take n).map amp))
          (listMax (((samples.drop idx).take n).map amp)) (amp v)) = some j) :
    scanLoop n region (fuel + 1) idx samples acc =
      scanLoop n region fuel (min (idx + n + j + region) samples.length)
        (maskRange samples (idx + n + j) (min (idx + n + j + region) samples.length)
          (replacement (listMin (((samples.drop idx).take n).map amp))))
        (acc ++ [⟨idx + n + j, min (idx + n + j + region) samples.length,
          replacement (listMin (((samples.drop idx).take n).map amp))⟩]) := by
  simp only [scanLoop]
  rw [if_pos h, hf]

/-! ### Termination: the cursor strictly increases, so fuel
`samples.length + 1` always suffices when the window is nonempty. -/

theorem scanLoop_total (n region : ℕ) (hn : 0 < n) :
    ∀ fuel idx (samples : List ℕ) (acc : List MaskedInterval),
      samples.length - idx < fuel →
      (scanLoop n region fuel idx samples acc).isSome := by
  intro fuel
  induction fuel with
  | zero => intro idx samples acc h; omega
  | succ fuel ih =>
    intro idx samples acc h
    by_cases hc : idx + n < samples.length
    · cases hf : (samples.drop (idx + n)).findIdx? (fun v =>
          isOutlier (listMin (((samples.drop idx).take n).map amp))
            (listMax (((samples.drop idx).take n).map amp)) (amp v)) with
      | none => rw [scanLoop_no_outlier hc hf]; rfl
      | some j =>
        rw [scanLoop_mask hc hf]
        apply ih
        rw [maskRange_length]
        omega
    · rw [scanLoop_exit hc]; rfl

/-! ### The master invariant of the scan loop -/

theorem take_eq_of_agree {a b : List ℕ} {m : ℕ}
    (h : ∀ j, j < m → a[j]? = b[j]?) : a.take m = b.take m := by
  apply List.ext_getElem?
  intro k
  rw [List.getElem?_take, List.getElem?_take]
  by_cases hk : k < m
  · rw [if_pos hk, if_pos hk, h k hk]
  · rw [if_neg hk, if_neg hk]

theorem window_eq_of_agree {a b : List ℕ} {m idx n : ℕ}
    (h : ∀ j, j < m → a[j]? = b[j]?) (hm : idx + n ≤ m) :
    (a.drop idx).take n = (b.drop idx).take n := by
  rw [List.take_drop, List.take_drop]
  congr 1
  exact take_eq_of_agree (fun j hj => h j (lt_of_lt_of_le hj hm))

/-- Each recorded region's replacement value is `replacement` applied to the
minimum amplitude of that iteration's baseline window; the baseline windows
can be read off the final sample sequence because the scan never overwrites a
baseline window after using it (each window `[idx, idx + n)` lies strictly
before every index masked from cursor `idx` onwards). -/
def windowRepl (final : List ℕ) (n : ℕ) : ℕ → List MaskedInterval → Prop
  | _, [] => True
  | idx, iv :: rest =>
    iv.replacement_value =
        replacement (listMin (((final.drop idx).take n).map amp)) ∧
      windowRepl final n iv.end_sample rest

theorem scanLoop_spec (n region : ℕ) (hn : 0 < n) :
    ∀ fuel idx (samples final : List ℕ) (acc ints : List MaskedInterval),
      scanLoop n region fuel idx samples acc = some (final, ints) →
      final.length = samples.length ∧
      ∃ new, ints = acc ++ new ∧
        (∀ iv ∈ new,
          idx + n ≤ iv.start_sample ∧ iv.start_sample ≤ iv.end_sample ∧
            iv.end_sample ≤ samples.length ∧ iv.replacement_value ≤ 4095) ∧
        List.Pairwise (fun a b => a.end_sample ≤ b.start_sample ∧
          a.start_sample < b.start_sample) new ∧
        (∀ iv ∈ new, ∀ k, iv.start_sample ≤ k → k < iv.end_sample →
          final[k]? = some iv.replacement_value) ∧
        (∀ k, (∀ iv ∈ new, k < iv.start_sample ∨ iv.end_sample ≤ k) →
          final[k]? = samples[k]?) ∧
        windowRepl final n idx new := by
  intro fuel
  induction fuel with
  | zero => intro idx samples final acc ints h; simp [scanLoop] at h
  | succ fuel ih =>
    intro idx samples final acc ints h
    by_cases hc : idx + n < samples.length
    · cases hf : (samples.drop (idx + n)).findIdx? (fun v =>
          isOutlier (listMin (((samples.drop idx).take n).map amp))
            (listMax (((samples.drop idx).take n).map amp)) (amp v)) with
      | none =>
        rw [scanLoop_no_outlier hc hf] at h
        simp only [Option.some.injEq, Prod.mk.injEq] at h
        obtain ⟨rfl, rfl⟩ := h
        exact ⟨rfl, [], by simp, by simp, List.Pairwise.nil, by simp,
          fun k _ => rfl, trivial⟩
      | some j =>
        rw [scanLoop_mask hc hf] at h
        have hjlt : idx + n + j < samples.length := by
          obtain ⟨hl, -, -⟩ := List.findIdx?_eq_some_iff_getElem.mp hf
          simp only [List.length_drop] at hl
          omega
        set F := idx + n + j with hF
        set E := min (idx + n + j + region) samples.length with hE
        set R := replacement (listMin (((samples.drop idx).take n).map amp)) with hR
        have hE1 : E ≤ samples.length := Nat.min_le_right _ _
        have hFE : F ≤ E := Nat.le_min.mpr ⟨Nat.le_add_right _ _, le_of_lt hjlt⟩
        have hidxE : idx < E := lt_of_lt_of_le (by omega) hFE
        obtain ⟨hlen, new', hints, hbounds, hpair, hmask, hframe, hwin⟩ :=
          ih E (maskRange samples F E R) final (acc ++ [⟨F, E, R⟩]) ints h
        have hmlen : (maskRange samples F E R).length = samples.length :=
          maskRange_length _ _ _ _
        have hlen' : final.length = samples.length := by rw [hlen, hmlen]
        have hfr : ∀ k, (∀ iv ∈ new', k < iv.start_sample ∨ iv.end_sample ≤ k) →
            final[k]? = (maskRange samples F E R)[k]? := hframe
        have hlowstart : ∀ iv ∈ new', E + n ≤ iv.start_sample := by
          intro iv hiv; exact (hbounds iv hiv).1
        refine ⟨hlen', ⟨F, E, R⟩ :: new', by rw [hints, List.append_assoc]; rfl,
          ?_, ?_, ?_, ?_, ?_⟩
        · intro iv hiv
          rcases List.mem_cons.mp hiv with rfl | hiv'
          · exact ⟨Nat.le_add_right _ _, hFE, hE1,
              by show R ≤ 4095; rw [hR]; exact replacement_le _⟩
          · obtain ⟨b1, b2, b3, b4⟩ := hbounds iv hiv'
            rw [hmlen] at b3
            exact ⟨by omega, b2, b3, b4⟩
        · refine List.pairwise_cons.mpr ⟨?_, hpair⟩
          intro b hb
          have hsb := hlowstart b hb
          exact ⟨show E ≤ b.start_sample by omega, show F < b.start_sample by omega⟩
        · intro iv hiv
          rcases List.mem_cons.mp hiv with rfl | hiv'
          · intro k hk1 hk2
            have hk1' : F ≤ k := hk1
            have hk2' : k < E := hk2
            have hk3 : k < samples.length := lt_of_lt_of_le hk2' hE1
            rw [hfr k (fun iv' hiv' => Or.inl (by have := hlowstart iv' hiv'; omega))]
            exact maskRange_getElem?_in R hk1' hk2' hk3
          · exact hmask iv hiv'
        · intro k hk
          have h1 := hfr k (fun iv' hiv' => hk iv' (List.mem_cons_of_mem _ hiv'))
          have hor : k < F ∨ E ≤ k := hk ⟨F, E, R⟩ (List.mem_cons_self _ _)
          rw [h1]
          exact maskRange_getElem?_out R hor
        · have hagree : ∀ j', j' < idx + n → final[j']? = samples[j']? := by
            intro j' hj'
            rw [hfr j' (fun iv' hiv' => Or.inl (by have := hlowstart iv' hiv'; omega))]
            exact maskRange_getElem?_out R (Or.inl (by omega))
          have hwineq : ((final.drop idx).take n) = ((samples.drop idx).take n) :=
            window_eq_of_agree hagree (le_refl _)
          exact ⟨by show R = _; rw [hwineq, hR], hwin⟩
    · rw [scanLoop_exit hc] at h
      simp only [Option.some.injEq, Prod.mk.injEq] at h
      obtain ⟨rfl, rfl⟩ := h
      exact ⟨rfl, [], by simp, by simp, List.Pairwise.nil, by simp,
        fun k _ => rfl, trivial⟩

/-! ### Field lemmas for 12-bit values -/

theorem amp_eq_mod (v : ℕ) : amp v = v % 4096 := by
  have h := Nat.and_pow_two_sub_one_eq_mod v 12
  norm_num at h
  exact h

theorem amp_of_le {v : ℕ} (h : v ≤ 4095) : amp v = v := by
  rw [amp_eq_mod]
  exact Nat.mod_eq_of_lt (by omega)

theorem quality_of_le {v : ℕ} (h : v ≤ 4095) : quality v = 0 := by
  show (v >>> 12) &&& 0x000F = 0
  have h12 : v >>> 12 = 0 := by
    rw [Nat.shiftRight_eq_div_pow]
    exact Nat.div_eq_of_lt (by omega)
  rw [h12]
  exact Nat.zero_and _

/-! ## The claims -/

/-- C4: for every byte buffer and parameters with `sample_rate >= 1`, the
scan/mask loop terminates — the cursor strictly increases each iteration and
is bounded by the sample count, so fuel `samples.length + 1` always suffices
and `process_file` is a total function on such inputs. -/
theorem scan_terminates (data : List ℕ) (header_size trailer_size sample_rate : ℕ)
    (h : 1 ≤ sample_rate) :
    (process_file data header_size trailer_size sample_rate).isSome := by
  unfold process_file scanSamples
  exact scanLoop_total _ _ (by omega) _ _ _ _ (by omega)

/-- Witness for C4 at a concrete input. -/
theorem scan_terminates_witness :
    (process_file ([0, 0] ++ (List.replicate 20 [3, 0]).flatten ++ [100, 0])
      2 0 1).isSome :=
  scan_terminates _ 2 0 1 (by decide)

/-- C3: with `sample_rate >= 1` (and any header/trailer sizes), the returned
interval list is strictly increasing in `start_index`, and every earlier
interval ends no later than a later one starts: no two intervals overlap. -/
theorem intervals_sorted_disjoint (data : List ℕ)
    (header_size trailer_size sample_rate : ℕ) (h : 1 ≤ sample_rate)
    (final : List ℕ) (ints : List MaskedInterval)
    (hrun : process_file data header_size trailer_size sample_rate =
      some (final, ints)) :
    List.Pairwise (fun a b => a.end_sample ≤ b.start_sample ∧
      a.start_sample < b.start_sample) ints := by
  unfold process_file scanSamples at hrun
  obtain ⟨-, new, hnew, -, hp, -⟩ :=
    scanLoop_spec _ _ (by omega) _ _ _ _ _ _ hrun
  rw [List.nil_append] at hnew
  subst hnew
  exact hp

/-- Witness for C3 at a concrete input. -/
theorem intervals_sorted_disjoint_witness :
    List.Pairwise (fun a b => a.end_sample ≤ b.start_sample ∧
      a.start_sample < b.start_sample) [(⟨20, 21, 2⟩ : MaskedInterval)] :=
  intervals_sorted_disjoint ([0, 0] ++ (List.replicate 20 [3, 0]).flatten ++ [100, 0])
    2 0 1 (by decide) (List.replicate 20 3 ++ [2]) [⟨20, 21, 2⟩] (by decide)

/-- C10: with `sample_rate >= 1`, every returned interval satisfies
`sample_rate * 20 <= start_index <= end_index <= len(samples)`: the first
baseline window is never masked and no interval extends past the end. -/
theorem interval_bounds (data : List ℕ)
    (header_size trailer_size sample_rate : ℕ) (h : 1 ≤ sample_rate)
    (final : List ℕ) (ints : List MaskedInterval)
    (hrun : process_file data header_size trailer_size sample_rate =
      some (final, ints)) :
    ∀ iv ∈ ints, sample_rate * 20 ≤ iv.start_sample ∧
      iv.start_sample ≤ iv.end_sample ∧
      iv.end_sample ≤ (decodeSamples data header_size).length := by
  unfold process_file scanSamples at hrun
  obtain ⟨-, new, hnew, hb, -⟩ :=
    scanLoop_spec _ _ (by omega) _ _ _ _ _ _ hrun
  rw [List.nil_append] at hnew
  subst hnew
  intro iv hiv
  obtain ⟨b1, b2, b3, -⟩ := hb iv hiv
  exact ⟨by omega, b2, b3⟩

/-- Witness for C10 at a concrete input. -/
theorem interval_bounds_witness :
    1 * 20 ≤ 20 ∧ 20 ≤ 21 ∧
      21 ≤ (decodeSamples ([0, 0] ++ (List.replicate 20 [3, 0]).flatten ++ [100, 0]) 2).length :=
  interval_bounds ([0, 0] ++ (List.replicate 20 [3, 0]).flatten ++ [100, 0])
    2 0 1 (by decide) (List.replicate 20 3 ++ [2]) [⟨20, 21, 2⟩] (by decide)
    ⟨20, 21, 2⟩ (by decide)

/-- C9 (frame property): with `sample_rate >= 1`, the scanner preserves the
length of the decoded sequence, and every sample whose index lies in no
returned interval retains exactly its originally decoded 16-bit value. -/
theorem unmasked_samples_unchanged (data : List ℕ)
    (header_size trailer_size sample_rate : ℕ) (h : 1 ≤ sample_rate)
    (final : List ℕ) (ints : List MaskedInterval)
    (hrun : process_file data header_size trailer_size sample_rate =
      some (final, ints)) :
    final.length = (decodeSamples data header_size).length ∧
    ∀ k, (∀ iv ∈ ints, k < iv.start_sample ∨ iv.end_sample ≤ k) →
      final[k]? = (decodeSamples data header_size)[k]? := by
  unfold process_file scanSamples at hrun
  obtain ⟨hlen, new, hnew, -, -, -, hframe, -⟩ :=
    scanLoop_spec _ _ (by omega) _ _ _ _ _ _ hrun
  rw [List.nil_append] at hnew
  subst hnew
  exact ⟨hlen, hframe⟩

/-- Witness for C9 at a concrete input: sample 0 is outside the single
returned interval and keeps its decoded value. -/
theorem unmasked_samples_unchanged_witness :
    (List.replicate 20 3 ++ [2])[0]? =
      (decodeSamples ([0, 0] ++ (List.replicate 20 [3, 0]).flatten ++ [100, 0]) 2)[0]? :=
  (unmasked_samples_unchanged ([0, 0] ++ (List.replicate 20 [3, 0]).flatten ++ [100, 0])
    2 0 1 (by decide) (List.replicate 20 3 ++ [2]) [⟨20, 21, 2⟩] (by decide)).2
    0 (by decide)

/-- C2 (mask postcondition): with `sample_rate >= 1`, every sample whose index
lies in a returned interval ends up equal to that interval's
`replacement_value`; the replacement value is `int(0.7 * min_signal) & 0x0FFF`
for that iteration's baseline window (`windowRepl`), never exceeds 12 bits,
has quality field `0` and amplitude field equal to itself. -/
theorem masked_samples_postcondition (data : List ℕ)
    (header_size trailer_size sample_rate : ℕ) (h : 1 ≤ sample_rate)
    (final : List ℕ) (ints : List MaskedInterval)
    (hrun : process_file data header_size trailer_size sample_rate =
      some (final, ints)) :
    (∀ iv ∈ ints, quality iv.replacement_value = 0 ∧
      amp iv.replacement_value = iv.replacement_value ∧
      iv.replacement_value ≤ 4095 ∧
      ∀ k, iv.start_sample ≤ k → k < iv.end_sample →
        final[k]? = some iv.replacement_value) ∧
    windowRepl final (sample_rate * 20) 0 ints := by
  unfold process_file scanSamples at hrun
  obtain ⟨-, new, hnew, hb, -, hmask, -, hwin⟩ :=
    scanLoop_spec _ _ (by omega) _ _ _ _ _ _ hrun
  rw [List.nil_append] at hnew
  subst hnew
  refine ⟨?_, hwin⟩
  intro iv hiv
  obtain ⟨-, -, -, b4⟩ := hb iv hiv
  exact ⟨quality_of_le b4, amp_of_le b4, b4, hmask iv hiv⟩

/-- Witness for C2 at a concrete input: the masked sample at index 20 holds
the recorded replacement value, whose quality field is `0`. -/
theorem masked_samples_postcondition_witness :
    quality 2 = 0 ∧ amp 2 = 2 ∧ 2 ≤ 4095 ∧
      ∀ k, 20 ≤ k → k < 21 → (List.replicate 20 3 ++ [2])[k]? = some 2 :=
  (masked_samples_postcondition
    ([0, 0] ++ (List.replicate 20 [3, 0]).flatten ++ [100, 0]) 2 0 1 (by decide)
    (List.replicate 20 3 ++ [2]) [⟨20, 21, 2⟩] (by decide)).1
    ⟨20, 21, 2⟩ (by decide)

/-! ### Decoder lemmas -/

theorem pairsLE_length : ∀ l : List ℕ, (pairsLE l).length = l.length / 2
  | [] => by simp [pairsLE]
  | [_] => by simp [pairsLE]
  | _ :: _ :: rest => by
    simp only [pairsLE, List.length_cons, pairsLE_length rest]
    omega

theorem pairsLE_getElem? :
    ∀ (l : List ℕ) (i lo hi : ℕ), l[2 * i]? = some lo → l[2 * i + 1]? = some hi →
      (pairsLE l)[i]? = some (lo + 256 * hi)
  | [], _, _, _ => by intro h1 _; simp at h1
  | [a], i, lo, hi => by
    intro _ h2
    rw [List.getElem?_eq_none (by simp)] at h2
    exact absurd h2 (by simp)
  | a :: b :: rest, i, lo, hi => by
    cases i with
    | zero =>
      intro h1 h2
      simp only [Nat.mul_zero, List.getElem?_cons_zero, Option.some.injEq] at h1
      simp only [Nat.mul_zero, Nat.zero_add, List.getElem?_cons_succ,
        List.getElem?_cons_zero, Option.some.injEq] at h2
      subst h1; subst h2
      simp only [pairsLE, List.getElem?_cons_zero]
    | succ i =>
      intro h1 h2
      have e : 2 * (i + 1) = 2 * i + 1 + 1 := by ring
      rw [e, List.getElem?_cons_succ, List.getElem?_cons_succ] at h1
      rw [e, List.getElem?_cons_succ, List.getElem?_cons_succ] at h2
      simp only [pairsLE, List.getElem?_cons_succ]
      exact pairsLE_getElem? rest i lo hi h1 h2

/-- C6 (decoder): the decoder discards the first `header_size` bytes, silently
drops a trailing odd byte, and reads the remainder as consecutive
little-endian unsigned 16-bit words, producing exactly
`floor(len(body) / 2)` samples; an oversized `header_size` yields the empty
sequence (and, the decoder being a total function, no error). -/
theorem decode_spec (data : List ℕ) (header_size : ℕ) :
    (decodeSamples data header_size).length = (data.length - header_size) / 2 ∧
    (∀ i lo hi, data[header_size + 2 * i]? = some lo →
      data[header_size + 2 * i + 1]? = some hi →
      (decodeSamples data header_size)[i]? = some (lo + 256 * hi)) ∧
    (data.length ≤ header_size → decodeSamples data header_size = []) := by
  refine ⟨?_, ?_, ?_⟩
  · rw [decodeSamples, pairsLE_length, List.length_drop]
  · intro i lo hi h1 h2
    have e2 : header_size + 2 * i + 1 = header_size + (2 * i + 1) := by omega
    rw [e2] at h2
    rw [← List.getElem?_drop] at h1 h2
    exact pairsLE_getElem? _ i lo hi h1 h2
  · intro h
    rw [decodeSamples, List.drop_eq_nil_of_le h]
    rfl

/-- Witness for C6 at a concrete input: the sample at index 0 of the decoded
sequence is the little-endian word formed from bytes 1 and 2. -/
theorem decode_spec_witness :
    (decodeSamples [9, 2, 3, 4, 5] 1)[0]? = some (2 + 256 * 3) :=
  (decode_spec [9, 2, 3, 4, 5] 1).2.1 0 2 3 (by decide) (by decide)

/-! ### Parameter validation (C7) -/

/-- Following the spec's words, which the source does not implement: parameters
are valid when `sample_rate` is positive and `header_size` / `trailer_size` do
not exceed the buffer bounds (negative values are unrepresentable here). -/
def specParamsValid (buflen header_size trailer_size sample_rate : ℕ) : Prop :=
  1 ≤ sample_rate ∧ header_size ≤ buflen ∧ trailer_size ≤ buflen

instance (b h t r : ℕ) : Decidable (specParamsValid b h t r) := by
  unfold specParamsValid; infer_instance

/-- C7 counterexample: `header_size = 10` on a 3-byte buffer is invalid per the
spec, yet `process_file` completes normally with an empty decode and an empty
interval list — no `ConfigurationError` (or any failure) occurs; the source
contains no parameter validation at all. -/
theorem no_config_error_counterexample :
    ¬ specParamsValid 3 10 0 1 ∧ process_file [7, 7, 7] 10 0 1 = some ([], []) :=
  ⟨by decide, by decide⟩

/-- C7 (amended): the code performs no parameter validation; a `header_size`
exceeding the buffer length is silently accepted: the decoder produces the
empty sample sequence, the scanner runs no iteration, and the program
completes normally with an empty interval list. -/
theorem oversized_header_completes_normally (data : List ℕ)
    (header_size trailer_size sample_rate : ℕ)
    (h : data.length ≤ header_size) :
    process_file data header_size trailer_size sample_rate = some ([], []) := by
  unfold process_file scanSamples decodeSamples
  rw [List.drop_eq_nil_of_le h]
  show scanLoop _ _ _ 0 [] [] = some ([], [])
  exact scanLoop_exit (by simp)

/-- Witness for the amended C7 at a concrete input. -/
theorem oversized_header_completes_normally_witness :
    process_file [7, 7, 7] 9 0 1 = some ([], []) :=
  oversized_header_completes_normally [7, 7, 7] 9 0 1 (by decide)

/-! ### Re-scan idempotence (C1) -/

/-- C1 counterexample: on this 44-byte buffer (`header_size = 2`,
`trailer_size = 0`, `sample_rate = 1`) the first run masks `[20, 21)` with
replacement value `2 = int(0.7 * 3)`; running the scanner again on the
resulting sequence returns the same interval once more — the flat replacement
`2` is strictly below the re-scan threshold `0.7 * 3`, so re-scan is not
idempotent: the second run's interval list is not empty. -/
theorem rescan_not_idempotent :
    process_file ([0, 0] ++ (List.replicate 20 [3, 0]).flatten ++ [100, 0]) 2 0 1
        = some (List.replicate 20 3 ++ [2], [⟨20, 21, 2⟩]) ∧
      scanSamples (List.replicate 20 3 ++ [2]) (1 * 20) ((2 + 0) / 2)
        = some (List.replicate 20 3 ++ [2], [⟨20, 21, 2⟩]) ∧
      ([(⟨20, 21, 2⟩ : MaskedInterval)] : List MaskedInterval) ≠ [] :=
  ⟨by decide, by decide, by decide⟩

/-- C1 (amended): re-scan idempotence fails in general (see the counterexample:
a masked region's flat value `int(0.7 * min)` is itself strictly below the
re-scan threshold `0.7 * min` whenever the product is not an exact integer),
but it holds for artifact-free runs: if a run of the scanner returns zero
intervals it leaves the sequence unchanged, and a second run with the same
parameters again returns zero intervals and the unchanged sequence. -/
theorem rescan_after_clean_run (samples : List ℕ) (n region : ℕ) (hn : 0 < n)
    (final : List ℕ) (hrun : scanSamples samples n region = some (final, [])) :
    final = samples ∧ scanSamples final n region = some (final, []) := by
  unfold scanSamples at hrun ⊢
  obtain ⟨-, new, hnew, -, -, -, hframe, -⟩ :=
    scanLoop_spec _ _ hn _ _ _ _ _ _ hrun
  have hnil : new = [] := by simpa using hnew.symm
  subst hnil
  have hfs : final = samples :=
    List.ext_getElem? (fun k => hframe k (by simp))
  subst hfs
  exact ⟨rfl, hrun⟩

/-- Witness for the amended C1 at a concrete input: a flat sequence yields no
intervals, and re-scan yields none either. -/
theorem rescan_after_clean_run_witness :
    List.replicate 21 5 = List.replicate 21 5 ∧
      scanSamples (List.replicate 21 5) 20 1 = some (List.replicate 21 5, []) :=
  rescan_after_clean_run (List.replicate 21 5) 20 1 (by decide)
    (List.replicate 21 5) (by decide)

/-! ### Outlier detection (C5) -/

theorem scanLoop_acc_extends (n region : ℕ) :
    ∀ fuel idx (samples final : List ℕ) (acc ints : List MaskedInterval),
      scanLoop n region fuel idx samples acc = some (final, ints) →
      ∃ new, ints = acc ++ new := by
  intro fuel
  induction fuel with
  | zero => intro idx samples final acc ints h; simp [scanLoop] at h
  | succ fuel ih =>
    intro idx samples final acc ints h
    by_cases hc : idx + n < samples.length
    · cases hf : (samples.drop (idx + n)).findIdx? (fun v =>
          isOutlier (listMin (((samples.drop idx).take n).map amp))
            (listMax (((samples.drop idx).take n).map amp)) (amp v)) with
      | none =>
        rw [scanLoop_no_outlier hc hf] at h
        simp only [Option.some.injEq, Prod.mk.injEq] at h
        exact ⟨[], by rw [← h.2, List.append_nil]⟩
      | some j =>
        rw [scanLoop_mask hc hf] at h
        obtain ⟨new', hnew'⟩ := ih _ _ _ _ _ h
        exact ⟨[_] ++ new', by rw [hnew', List.append_assoc]⟩
    · rw [scanLoop_exit hc] at h
      simp only [Option.some.injEq, Prod.mk.injEq] at h
      exact ⟨[], by rw [← h.2, List.append_nil]⟩

/-- The outlier test is exactly the strict two-sided tolerance-band test with
rational thresholds `0.7 * mn` and `1.3 * mx` (which agree with the source's
double-precision thresholds on the whole 12-bit domain). -/
theorem isOutlier_iff (mn mx a : ℕ) :
    isOutlier mn mx a = true ↔
      ((a : ℚ) < 7 / 10 * (mn : ℚ) ∨ 13 / 10 * (mx : ℚ) < (a : ℚ)) := by
  have h1 : ((a : ℚ) < 7 / 10 * (mn : ℚ)) ↔ 10 * a < 7 * mn := by
    rw [div_mul_eq_mul_div, lt_div_iff₀ (by norm_num : (0:ℚ) < 10),
      show (a : ℚ) * 10 = ((10 * a : ℕ) : ℚ) by push_cast; ring,
      show (7 : ℚ) * (mn : ℚ) = ((7 * mn : ℕ) : ℚ) by push_cast; ring]
    exact Nat.cast_lt
  have h2 : (13 / 10 * (mx : ℚ) < (a : ℚ)) ↔ 13 * mx < 10 * a := by
    rw [div_mul_eq_mul_div, div_lt_iff₀ (by norm_num : (0:ℚ) < 10),
      show (a : ℚ) * 10 = ((10 * a : ℕ) : ℚ) by push_cast; ring,
      show (13 : ℚ) * (mx : ℚ) = ((13 * mx : ℕ) : ℚ) by push_cast; ring]
    exact Nat.cast_lt
  simp [isOutlier, h1, h2]

/-- C5: at any iteration of the loop whose baseline window `[idx, idx + n)`
fits (`idx + n < samples.length`), with `mn` / `mx` the window's amplitude
extrema: (i) an amplitude is an outlier iff it is strictly below `0.7 * mn`
or strictly above `1.3 * mx` — exact equality with a threshold is not an
outlier; (ii) if no sample at or after `idx + n` is an outlier, the loop
stops, returning the samples and the intervals collected so far; (iii) if the
first outlier is at relative index `j`, then the sample at absolute index
`idx + n + j` is an outlier, no sample in `[idx + n, idx + n + j)` is one
(samples inside the baseline window are never tested: the scan starts at
`idx + n`), and the iteration records a masked region starting exactly at
`idx + n + j`. -/
theorem outlier_scan_step (n region fuel idx : ℕ) (samples : List ℕ)
    (acc : List MaskedInterval) (mn mx : ℕ)
    (hmn : mn = listMin (((samples.drop idx).take n).map amp))
    (hmx : mx = listMax (((samples.drop idx).take n).map amp))
    (hc : idx + n < samples.length) :
    (∀ a : ℕ, isOutlier mn mx a = true ↔
      ((a : ℚ) < 7 / 10 * (mn : ℚ) ∨ 13 / 10 * (mx : ℚ) < (a : ℚ))) ∧
    ((∀ v ∈ samples.drop (idx + n), isOutlier mn mx (amp v) = false) →
      scanLoop n region (fuel + 1) idx samples acc = some (samples, acc)) ∧
    (∀ j, (samples.drop (idx + n)).findIdx?
        (fun v => isOutlier mn mx (amp v)) = some j →
      (∃ v, samples[idx + n + j]? = some v ∧ isOutlier mn mx (amp v) = true) ∧
      (∀ i, idx + n ≤ i → i < idx + n + j →
        ∃ w, samples[i]? = some w ∧ isOutlier mn mx (amp w) = false) ∧
      (∀ final ints,
        scanLoop n region (fuel + 1) idx samples acc = some (final, ints) →
        ∃ rest, ints = acc ++
          ⟨idx + n + j, min (idx + n + j + region) samples.length,
            replacement mn⟩ :: rest)) := by
  subst hmn hmx
  refine ⟨fun a => isOutlier_iff _ _ a, ?_, ?_⟩
  · intro hall
    exact scanLoop_no_outlier hc (List.findIdx?_eq_none_iff.mpr hall)
  · intro j hj
    obtain ⟨hl, hp, hprev⟩ := List.findIdx?_eq_some_iff_getElem.mp hj
    refine ⟨?_, ?_, ?_⟩
    · refine ⟨(samples.drop (idx + n))[j], ?_, hp⟩
      rw [← List.getElem?_drop]
      exact List.getElem?_eq_getElem hl
    · intro i hi1 hi2
      have hd : i - (idx + n) < j := by omega
      have hdl : i - (idx + n) < (samples.drop (idx + n)).length := by
        exact lt_trans hd hl
      refine ⟨(samples.drop (idx + n))[i - (idx + n)], ?_, ?_⟩
      · rw [← List.getElem?_eq_getElem hdl, List.getElem?_drop]
        congr 1
        omega
      · simpa using hprev (i - (idx + n)) hd
    · intro final ints hrun
      rw [scanLoop_mask hc hj] at hrun
      obtain ⟨rest, hrest⟩ := scanLoop_acc_extends n region fuel _ _ _ _ _ hrun
      exact ⟨rest, by rw [hrest, List.append_assoc]; rfl⟩

/-- Witness for C5 at a concrete state: a window `[10, 10]` with the sample
`100` beyond it. -/
theorem outlier_scan_step_witness :
    (∀ a : ℕ, isOutlier 10 10 a = true ↔
      ((a : ℚ) < 7 / 10 * ((10 : ℕ) : ℚ) ∨ 13 / 10 * ((10 : ℕ) : ℚ) < (a : ℚ))) ∧
    ((∀ v ∈ ([10, 10, 100] : List ℕ).drop (0 + 2), isOutlier 10 10 (amp v) = false) →
      scanLoop 2 1 (1 + 1) 0 [10, 10, 100] [] = some ([10, 10, 100], [])) ∧
    (∀ j, (([10, 10, 100] : List ℕ).drop (0 + 2)).findIdx?
        (fun v => isOutlier 10 10 (amp v)) = some j →
      (∃ v, ([10, 10, 100] : List ℕ)[0 + 2 + j]? = some v ∧
        isOutlier 10 10 (amp v) = true) ∧
      (∀ i, 0 + 2 ≤ i → i < 0 + 2 + j →
        ∃ w, ([10, 10, 100] : List ℕ)[i]? = some w ∧
          isOutlier 10 10 (amp w) = false) ∧
      (∀ final ints,
        scanLoop 2 1 (1 + 1) 0 [10, 10, 100] [] = some (final, ints) →
        ∃ rest, ints = [] ++
          ⟨0 + 2 + j, min (0 + 2 + j + 1) ([10, 10, 100] : List ℕ).length,
            replacement 10⟩ :: rest)) :=
  outlier_scan_step 2 1 1 0 [10, 10, 100] [] 10 10 (by decide) (by decide) (by decide)

/-! ### Structured-list evaluation kit (for the single-spike scenario, C8) -/

theorem map_const_of_all {l : List ℕ} {f : ℕ → ℕ} {c : ℕ} (h : ∀ v ∈ l, f v = c) :
    l.map f = List.replicate l.length c := by
  induction l with
  | nil => rfl
  | cons x xs ih =>
    simp only [List.map_cons, List.length_cons, List.replicate_succ]
    rw [h x (by simp), ih (fun v hv => h v (by simp [hv]))]

theorem foldl_min_replicate : ∀ (k a c : ℕ),
    List.foldl Nat.min a (List.replicate k c) = if k = 0 then a else Nat.min a c
  | 0, a, c => rfl
  | k + 1, a, c => by
    rw [List.replicate_succ, List.foldl_cons, foldl_min_replicate k]
    by_cases hk : k = 0
    · simp [hk]
    · rw [if_neg hk, if_neg (by omega)]
      simp only [Nat.min_def]
      split_ifs <;> omega

theorem foldl_max_replicate : ∀ (k a c : ℕ),
    List.foldl Nat.max a (List.replicate k c) = if k = 0 then a else Nat.max a c
  | 0, a, c => rfl
  | k + 1, a, c => by
    rw [List.replicate_succ, List.foldl_cons, foldl_max_replicate k]
    by_cases hk : k = 0
    · simp [hk]
    · rw [if_neg hk, if_neg (by omega)]
      simp only [Nat.max_def]
      split_ifs <;> omega

theorem listMin_cons_replicate (x k c : ℕ) :
    listMin (x :: List.replicate k c) = if k = 0 then x else Nat.min x c :=
  foldl_min_replicate k x c

theorem listMax_cons_replicate (x k c : ℕ) :
    listMax (x :: List.replicate k c) = if k = 0 then x else Nat.max x c :=
  foldl_max_replicate k x c

theorem listMin_replicate (k c : ℕ) (h : 0 < k) :
    listMin (List.replicate k c) = c := by
  cases k with
  | zero => omega
  | succ k =>
    rw [List.replicate_succ, listMin_cons_replicate]
    by_cases hk : k = 0
    · simp [hk]
    · rw [if_neg hk]
      simp only [Nat.min_def]
      split_ifs <;> omega

theorem listMax_replicate (k c : ℕ) (h : 0 < k) :
    listMax (List.replicate k c) = c := by
  cases k with
  | zero => omega
  | succ k =>
    rw [List.replicate_succ, listMax_cons_replicate]
    by_cases hk : k = 0
    · simp [hk]
    · rw [if_neg hk]
      simp only [Nat.max_def]
      split_ifs <;> omega

theorem maskRange_zero_zero : ∀ (l : List ℕ) (r : ℕ), maskRange l 0 0 r = l
  | [], _ => rfl
  | v :: rest, r => by
    simp only [maskRange, maskRange_zero_zero rest r]
    rw [if_neg (by omega)]

theorem maskRange_front_replicate : ∀ (Y Z : List ℕ) (repl : ℕ),
    maskRange (Y ++ Z) 0 Y.length repl = List.replicate Y.length repl ++ Z
  | [], Z, repl => by simp [maskRange_zero_zero]
  | y :: ys, Z, repl => by
    have e2 : ys.length + 1 - 1 = ys.length := by omega
    simp only [List.cons_append, maskRange, List.length_cons, List.replicate_succ,
      Nat.zero_sub, e2, List.append_eq]
    rw [if_pos (by simp), maskRange_front_replicate ys Z repl]

theorem maskRange_append_mid : ∀ (X Y Z : List ℕ) (repl : ℕ),
    maskRange (X ++ Y ++ Z) X.length (X.length + Y.length) repl =
      X ++ List.replicate Y.length repl ++ Z
  | [], Y, Z, repl => by simpa using maskRange_front_replicate Y Z repl
  | x :: xs, Y, Z, repl => by
    simp only [List.cons_append, maskRange, List.length_cons, List.append_eq]
    rw [if_neg (by omega)]
    have e1 : xs.length + 1 - 1 = xs.length := by omega
    have e2 : xs.length + 1 + Y.length - 1 = xs.length + Y.length := by omega
    rw [e1, e2, maskRange_append_mid xs Y Z repl]

/-- One masking iteration of the loop, with the window extrema supplied as
already-evaluated values. -/
theorem scanLoop_step_eval (region fuel : ℕ) (acc : List MaskedInterval)
    {n idx : ℕ} {samples : List ℕ} {mn mx j : ℕ}
    (hc : idx + n < samples.length)
    (hwmn : listMin (((samples.drop idx).take n).map amp) = mn)
    (hwmx : listMax (((samples.drop idx).take n).map amp) = mx)
    (hf : (samples.drop (idx + n)).findIdx?
      (fun v => isOutlier mn mx (amp v)) = some j) :
    scanLoop n region (fuel + 1) idx samples acc =
      scanLoop n region fuel (min (idx + n + j + region) samples.length)
        (maskRange samples (idx + n + j) (min (idx + n + j + region) samples.length)
          (replacement mn))
        (acc ++ [⟨idx + n + j, min (idx + n + j + region) samples.length,
          replacement mn⟩]) := by
  rw [← hwmn]
  apply scanLoop_mask hc
  rw [hwmn, hwmx]
  exact hf

/-- One stopping iteration of the loop (no outlier beyond the window), with
the window extrema supplied as already-evaluated values. -/
theorem scanLoop_stop_eval {n region fuel idx : ℕ} {samples : List ℕ}
    {acc : List MaskedInterval} {mn mx : ℕ}
    (hc : idx + n < samples.length)
    (hwmn : listMin (((samples.drop idx).take n).map amp) = mn)
    (hwmx : listMax (((samples.drop idx).take n).map amp) = mx)
    (hf : (samples.drop (idx + n)).findIdx?
      (fun v => isOutlier mn mx (amp v)) = none) :
    scanLoop n region (fuel + 1) idx samples acc = some (samples, acc) := by
  apply scanLoop_no_outlier hc
  rw [hwmn, hwmx]
  exact hf

/-- First iteration of the scenario: a 3000-sample all-1000 baseline followed
by an outlier at index 3000 and an `r`-sample region; the loop masks
`[3000, 3000 + r)` with replacement `700` and moves the cursor to `3000 + r`. -/
theorem scanLoop_first_mask (r fuel : ℕ) (A Mt R2 : List ℕ) (m0 : ℕ)
    (hA : A.length = 3000) (hAa : ∀ v ∈ A, amp v = 1000)
    (hMlen : Mt.length + 1 = r)
    (hout : isOutlier 1000 1000 (amp m0) = true) :
    scanLoop 3000 r (fuel + 1) 0 (A ++ (m0 :: Mt) ++ R2) [] =
      scanLoop 3000 r fuel (3000 + r)
        (A ++ List.replicate r 700 ++ R2) [⟨3000, 3000 + r, 700⟩] := by
  set S0 := A ++ (m0 :: Mt) ++ R2 with hS0
  have hlen0 : S0.length = 3000 + r + R2.length := by
    rw [hS0]
    simp only [List.length_append, List.length_cons, hA]
    omega
  have hc0 : 0 + 3000 < S0.length := by omega
  have hw0 : (S0.drop 0).take 3000 = A := by
    rw [List.drop_zero, hS0, List.append_assoc]
    exact List.take_left' hA
  have hampA : A.map amp = List.replicate 3000 1000 := by
    rw [map_const_of_all hAa, hA]
  have hmn0 : listMin (((S0.drop 0).take 3000).map amp) = 1000 := by
    rw [hw0, hampA, listMin_replicate 3000 1000 (by norm_num)]
  have hmx0 : listMax (((S0.drop 0).take 3000).map amp) = 1000 := by
    rw [hw0, hampA, listMax_replicate 3000 1000 (by norm_num)]
  have hd0 : S0.drop (0 + 3000) = (m0 :: Mt) ++ R2 := by
    rw [Nat.zero_add, hS0, List.append_assoc]
    exact List.drop_left' hA
  have hf0 : (S0.drop (0 + 3000)).findIdx?
      (fun v => isOutlier 1000 1000 (amp v)) = some 0 := by
    rw [hd0, List.cons_append, List.findIdx?_cons]
    simp [hout]
  have hmask : maskRange S0 3000 (3000 + r) 700 =
      A ++ List.replicate r 700 ++ R2 := by
    have h2 := maskRange_append_mid A (m0 :: Mt) R2 700
    rw [hA] at h2
    rw [show (m0 :: Mt).length = r from by simp; omega] at h2
    rw [hS0]
    exact h2
  have h := scanLoop_step_eval r fuel [] hc0 hmn0 hmx0 hf0
  rw [h, show (0 + 3000 + 0 + r : ℕ) = 3000 + r from by omega,
    show (0 + 3000 + 0 : ℕ) = 3000 from by omega,
    show min (3000 + r) S0.length = 3000 + r from by omega,
    show replacement 1000 = 700 from by decide, hmask, List.nil_append]

/-- Second iteration of the scenario: with the cursor at `3000 + r`, the
baseline window contains one arbitrary sample plus 2999 amplitude-1000
samples, and the single remaining sample (amplitude 1000) is inside the
tolerance band, so the loop stops. -/
theorem scanLoop_settle_tail (r fuel : ℕ) (A C : List ℕ) (x : ℕ)
    (hA : A.length = 3000) (hC : C.length = 3000) (hCa : ∀ v ∈ C, amp v = 1000)
    (acc : List MaskedInterval) :
    scanLoop 3000 r (fuel + 1) (3000 + r)
        (A ++ List.replicate r 700 ++ [x] ++ C) acc =
      some (A ++ List.replicate r 700 ++ [x] ++ C, acc) := by
  set S1 := A ++ List.replicate r 700 ++ [x] ++ C with hS1
  have hlen1 : S1.length = 6001 + r := by
    rw [hS1]
    simp only [List.length_append, List.length_cons, List.length_replicate,
      List.length_nil, hA, hC]
    omega
  have hc1 : (3000 + r) + 3000 < S1.length := by omega
  have hd1 : S1.drop (3000 + r) = x :: C := by
    rw [hS1, show A ++ List.replicate r 700 ++ [x] ++ C =
      (A ++ List.replicate r 700) ++ ([x] ++ C) from by simp [List.append_assoc]]
    rw [List.drop_left' (by simp [hA])]
    simp
  have hw1 : (S1.drop (3000 + r)).take 3000 = x :: C.take 2999 := by
    rw [hd1, show (3000 : ℕ) = 2999 + 1 from rfl, List.take_succ_cons]
  have hampC : (C.take 2999).map amp = List.replicate 2999 1000 := by
    rw [map_const_of_all (fun v hv => hCa v (List.take_subset _ _ hv))]
    rw [List.length_take, hC, show min 2999 3000 = 2999 from by omega]
  have hmn1 : listMin (((S1.drop (3000 + r)).take 3000).map amp) =
      Nat.min (amp x) 1000 := by
    rw [hw1, List.map_cons, hampC, listMin_cons_replicate,
      if_neg (by norm_num)]
  have hmx1 : listMax (((S1.drop (3000 + r)).take 3000).map amp) =
      Nat.max (amp x) 1000 := by
    rw [hw1, List.map_cons, hampC, listMax_cons_replicate,
      if_neg (by norm_num)]
  have hd2 : S1.drop ((3000 + r) + 3000) = C.drop 2999 := by
    rw [show ((3000 + r) + 3000 : ℕ) = (3001 + r) + 2999 from by omega]
    rw [hS1, show A ++ List.replicate r 700 ++ [x] ++ C =
      (A ++ List.replicate r 700 ++ [x]) ++ C from by simp [List.append_assoc]]
    rw [show (3001 + r : ℕ) = (A ++ List.replicate r 700 ++ [x]).length from by
      simp [hA]; omega]
    exact List.drop_append 2999
  have hf1 : (S1.drop ((3000 + r) + 3000)).findIdx? (fun v =>
      isOutlier (Nat.min (amp x) 1000) (Nat.max (amp x) 1000) (amp v)) = none := by
    rw [hd2]
    apply List.findIdx?_eq_none_iff.mpr
    intro v hv
    rw [hCa v (List.drop_subset _ _ hv)]
    simp only [isOutlier, Bool.or_eq_false_iff, decide_eq_false_iff_not]
    have hmin : Nat.min (amp x) 1000 ≤ 1000 := Nat.min_le_right _ _
    have hmax : 1000 ≤ Nat.max (amp x) 1000 := Nat.le_max_right _ _
    omega
  exact scanLoop_stop_eval hc1 hmn1 hmx1 hf1

/-- Re-scan of the masked scenario sequence: the flat `700` region sits exactly
on the low threshold `0.7 * 1000` (not strictly below), the surviving sample
`b` is inside the band, and the trailing baseline is inside the band, so the
re-scan stops with no interval. -/
theorem scanLoop_rescan_clean (r fuel : ℕ) (A C : List ℕ) (b : ℕ)
    (hA : A.length = 3000) (hAa : ∀ v ∈ A, amp v = 1000)
    (hC : C.length = 3000) (hCa : ∀ v ∈ C, amp v = 1000)
    (hb1 : 700 ≤ amp b) (hb2 : amp b ≤ 1300) :
    scanLoop 3000 r (fuel + 1) 0 (A ++ List.replicate r 700 ++ [b] ++ C) [] =
      some (A ++ List.replicate r 700 ++ [b] ++ C, []) := by
  set S1 := A ++ List.replicate r 700 ++ [b] ++ C with hS1
  have hlen1 : S1.length = 6001 + r := by
    rw [hS1]
    simp only [List.length_append, List.length_cons, List.length_replicate,
      List.length_nil, hA, hC]
    omega
  have hc : 0 + 3000 < S1.length := by omega
  have hw : (S1.drop 0).take 3000 = A := by
    rw [List.drop_zero, hS1]
    simp only [List.append_assoc]
    exact List.take_left' hA
  have hampA : A.map amp = List.replicate 3000 1000 := by
    rw [map_const_of_all hAa, hA]
  have hmn : listMin (((S1.drop 0).take 3000).map amp) = 1000 := by
    rw [hw, hampA, listMin_replicate 3000 1000 (by norm_num)]
  have hmx : listMax (((S1.drop 0).take 3000).map amp) = 1000 := by
    rw [hw, hampA, listMax_replicate 3000 1000 (by norm_num)]
  have hd : S1.drop (0 + 3000) = List.replicate r 700 ++ ([b] ++ C) := by
    rw [Nat.zero_add, hS1]
    simp only [List.append_assoc]
    exact List.drop_left' hA
  have hf : (S1.drop (0 + 3000)).findIdx?
      (fun v => isOutlier 1000 1000 (amp v)) = none := by
    rw [hd]
    apply List.findIdx?_eq_none_iff.mpr
    intro v hv
    rcases List.mem_append.mp hv with h1 | h2
    · have hv700 := List.eq_of_mem_replicate h1
      subst hv700
      decide
    · rcases List.mem_append.mp h2 with h3 | h4
      · show isOutlier 1000 1000 (amp v) = false
        rw [List.mem_singleton.mp h3]
        simp only [isOutlier, Bool.or_eq_false_iff, decide_eq_false_iff_not]
        omega
      · rw [hCa v h4]
        decide
  exact scanLoop_stop_eval hc hmn hmx hf

/-- C8 (amended): for `sample_rate = 150` and the sample sequence
`A ++ [spike] ++ B0 ++ [b] ++ C` — a 3000-sample amplitude-1000 baseline, one
amplitude-4095 spike at index 3000 (quality bits arbitrary), then
`region_len = (header_size + trailer_size) / 2 >= 1` samples of arbitrary
quality whose amplitudes may be arbitrary except that the last one (`b`, at
index `3000 + region_len`, which the mask does not reach) lies within
`[700, 1300]`, then 3000 more amplitude-1000 samples — the scanner returns
exactly one interval `{start: 3000, end: 3000 + region_len, replacement: 700}`
and masks exactly `[3000, 3000 + region_len)` flat at 700; a second run on the
resulting sequence returns no interval and leaves it unchanged. -/
theorem single_spike_scenario (header_size trailer_size : ℕ) (A B0 C : List ℕ)
    (spike b : ℕ)
    (hr : 1 ≤ (header_size + trailer_size) / 2)
    (hA : A.length = 3000) (hAa : ∀ v ∈ A, amp v = 1000)
    (hC : C.length = 3000) (hCa : ∀ v ∈ C, amp v = 1000)
    (hsp : amp spike = 4095)
    (hB : B0.length = (header_size + trailer_size) / 2 - 1)
    (hb1 : 700 ≤ amp b) (hb2 : amp b ≤ 1300) :
    scanSamples (A ++ [spike] ++ B0 ++ [b] ++ C) (150 * 20)
        ((header_size + trailer_size) / 2) =
      some (A ++ List.replicate ((header_size + trailer_size) / 2) 700 ++ [b] ++ C,
        [⟨3000, 3000 + (header_size + trailer_size) / 2, 700⟩]) ∧
    scanSamples
        (A ++ List.replicate ((header_size + trailer_size) / 2) 700 ++ [b] ++ C)
        (150 * 20) ((header_size + trailer_size) / 2) =
      some (A ++ List.replicate ((header_size + trailer_size) / 2) 700 ++ [b] ++ C,
        []) := by
  set r := (header_size + trailer_size) / 2 with hrdef
  constructor
  · rw [show (150 * 20 : ℕ) = 3000 from rfl]
    unfold scanSamples
    rw [show (A ++ [spike] ++ B0 ++ [b] ++ C).length = 6001 + r from by
      simp only [List.length_append, List.length_cons, List.length_nil, hA, hB, hC]
      omega]
    rw [show A ++ [spike] ++ B0 ++ [b] ++ C =
      A ++ (spike :: B0) ++ ([b] ++ C) from by simp]
    rw [scanLoop_first_mask r (6001 + r) A B0 ([b] ++ C) spike hA hAa
      (by omega) (by rw [hsp]; decide)]
    rw [show A ++ List.replicate r 700 ++ ([b] ++ C) =
      A ++ List.replicate r 700 ++ [b] ++ C from by simp]
    rw [show (6001 + r : ℕ) = (6000 + r) + 1 from by omega]
    rw [scanLoop_settle_tail r (6000 + r) A C b hA hC hCa]
  · rw [show (150 * 20 : ℕ) = 3000 from rfl]
    unfold scanSamples
    have hL : (A ++ List.replicate r 700 ++ [b] ++ C).length = 6001 + r := by
      simp only [List.length_append, List.length_cons, List.length_nil,
        List.length_replicate, hA, hC]
      omega
    rw [hL]
    exact scanLoop_rescan_clean r (6001 + r) A C b hA hAa hC hCa hb1 hb2

/-- Witness for the amended C8 at a concrete input (`header_size = 2`,
`trailer_size = 0`, so `region_len = 1`; the one arbitrary sample has
amplitude 1000). -/
theorem single_spike_scenario_witness :
    scanSamples (List.replicate 3000 1000 ++ [4095] ++ [] ++ [1000] ++
        List.replicate 3000 1000) (150 * 20) ((2 + 0) / 2) =
      some (List.replicate 3000 1000 ++ List.replicate ((2 + 0) / 2) 700 ++
        [1000] ++ List.replicate 3000 1000,
        [⟨3000, 3000 + (2 + 0) / 2, 700⟩]) ∧
    scanSamples (List.replicate 3000 1000 ++ List.replicate ((2 + 0) / 2) 700 ++
        [1000] ++ List.replicate 3000 1000) (150 * 20) ((2 + 0) / 2) =
      some (List.replicate 3000 1000 ++ List.replicate ((2 + 0) / 2) 700 ++
        [1000] ++ List.replicate 3000 1000, []) :=
  single_spike_scenario 2 0 (List.replicate 3000 1000) [] (List.replicate 3000 1000)
    4095 1000 (by decide) (List.length_replicate 3000 1000)
    (fun v hv => by rw [List.eq_of_mem_replicate hv]; decide)
    (List.length_replicate 3000 1000)
    (fun v hv => by rw [List.eq_of_mem_replicate hv]; decide)
    (by decide) (by decide) (by decide) (by decide)

/-- C8 counterexample: the scenario with `header_size = 2`, `trailer_size = 0`
(`region_len = 1`) and the one arbitrary-amplitude sample equal to `4095`.
The first run returns exactly the claimed interval `{3000, 3001, 700}`, but the
mask `[3000, 3001)` does not reach the arbitrary sample at index `3001`, so the
second run finds it as an outlier and returns a new interval `{3001, 3002, 700}`
— not the empty list the claim requires. -/
theorem single_spike_rescan_counterexample :
    scanSamples (List.replicate 3000 1000 ++ [4095] ++ [4095] ++
        List.replicate 3000 1000) (150 * 20) ((2 + 0) / 2) =
      some (List.replicate 3000 1000 ++ [700] ++ [4095] ++
        List.replicate 3000 1000, [⟨3000, 3001, 700⟩]) ∧
    scanSamples (List.replicate 3000 1000 ++ [700] ++ [4095] ++
        List.replicate 3000 1000) (150 * 20) ((2 + 0) / 2) =
      some (List.replicate 3000 1000 ++ [700] ++ [700] ++
        List.replicate 3000 1000, [⟨3001, 3002, 700⟩]) ∧
    ([(⟨3001, 3002, 700⟩ : MaskedInterval)] : List MaskedInterval) ≠ [] := by
  have hA : (List.replicate 3000 (1000 : ℕ)).length = 3000 :=
    List.length_replicate 3000 1000
  have hAa : ∀ v ∈ List.replicate 3000 (1000 : ℕ), amp v = 1000 := by
    intro v hv
    rw [List.eq_of_mem_replicate hv]
    decide
  have hrepl : replacement 1000 = 700 := by decide
  refine ⟨?_, ?_, by decide⟩
  · rw [show (150 * 20 : ℕ) = 3000 from rfl, show ((2 + 0) / 2 : ℕ) = 1 from rfl]
    unfold scanSamples
    have hlen0 : (List.replicate 3000 (1000 : ℕ) ++ [4095] ++ [4095] ++
        List.replicate 3000 1000).length = 6002 := by
      simp only [List.length_append, List.length_replicate, List.length_cons,
        List.length_nil]
    have hshape0 : List.replicate 3000 (1000 : ℕ) ++ [4095] ++ [4095] ++
        List.replicate 3000 1000 =
        List.replicate 3000 1000 ++ ((4095 : ℕ) :: []) ++
          ([4095] ++ List.replicate 3000 1000) := by
      simp only [List.append_assoc, List.singleton_append, List.cons_append,
        List.nil_append]
    rw [hlen0, hshape0]
    rw [scanLoop_first_mask 1 6002 (List.replicate 3000 1000) []
      ([4095] ++ List.replicate 3000 1000) 4095 hA hAa (by norm_num) (by decide)]
    have hshape1 : List.replicate 3000 (1000 : ℕ) ++ List.replicate 1 700 ++
        ([4095] ++ List.replicate 3000 1000) =
        List.replicate 3000 1000 ++ List.replicate 1 700 ++ [4095] ++
          List.replicate 3000 1000 := by
      simp only [List.append_assoc, List.singleton_append, List.cons_append,
        List.nil_append]
    rw [hshape1, show (6002 : ℕ) = 6001 + 1 from rfl]
    rw [scanLoop_settle_tail 1 6001 (List.replicate 3000 1000)
      (List.replicate 3000 1000) 4095 hA hA hAa]
    rw [List.replicate_one, show (3000 + 1 : ℕ) = 3001 from rfl]
  · rw [show (150 * 20 : ℕ) = 3000 from rfl, show ((2 + 0) / 2 : ℕ) = 1 from rfl]
    unfold scanSamples
    have hlen1 : (List.replicate 3000 (1000 : ℕ) ++ [700] ++ [4095] ++
        List.replicate 3000 1000).length = 6002 := by
      simp only [List.length_append, List.length_replicate, List.length_cons,
        List.length_nil]
    rw [hlen1]
    have hc : 0 + 3000 < (List.replicate 3000 (1000 : ℕ) ++ [700] ++ [4095] ++
        List.replicate 3000 1000).length := by omega
    have hshape : List.replicate 3000 (1000 : ℕ) ++ [700] ++ [4095] ++
        List.replicate 3000 1000 =
        List.replicate 3000 1000 ++
          ([700] ++ ([4095] ++ List.replicate 3000 1000)) := by
      simp only [List.append_assoc]
    have hw : ((List.replicate 3000 (1000 : ℕ) ++ [700] ++ [4095] ++
        List.replicate 3000 1000).drop 0).take 3000 = List.replicate 3000 1000 := by
      rw [List.drop_zero, hshape]
      exact List.take_left' hA
    have hampA : (List.replicate 3000 (1000 : ℕ)).map amp =
        List.replicate 3000 1000 := by
      rw [map_const_of_all hAa, hA]
    have hmn : listMin ((((List.replicate 3000 (1000 : ℕ) ++ [700] ++ [4095] ++
        List.replicate 3000 1000).drop 0).take 3000).map amp) = 1000 := by
      rw [hw, hampA, listMin_replicate 3000 1000 (by norm_num)]
    have hmx : listMax ((((List.replicate 3000 (1000 : ℕ) ++ [700] ++ [4095] ++
        List.replicate 3000 1000).drop 0).take 3000).map amp) = 1000 := by
      rw [hw, hampA, listMax_replicate 3000 1000 (by norm_num)]
    have hd : (List.replicate 3000 (1000 : ℕ) ++ [700] ++ [4095] ++
        List.replicate 3000 1000).drop (0 + 3000) =
        700 :: 4095 :: List.replicate 3000 1000 := by
      rw [Nat.zero_add, hshape, List.drop_left' hA]
      simp only [List.singleton_append]
    have hf : ((List.replicate 3000 (1000 : ℕ) ++ [700] ++ [4095] ++
        List.replicate 3000 1000).drop (0 + 3000)).findIdx?
        (fun v => isOutlier 1000 1000 (amp v)) = some 1 := by
      rw [hd, List.findIdx?_cons, if_neg (by decide), List.findIdx?_cons,
        if_pos (by decide)]
    have h1 := scanLoop_step_eval 1 6002 [] hc hmn hmx hf
    have e1 : (0 + 3000 + 1 + 1 : ℕ) = 3002 := rfl
    have e2 : (0 + 3000 + 1 : ℕ) = 3001 := rfl
    have emin : min (3002 : ℕ) 6002 = 3002 := by omega
    rw [h1, e1, e2, hlen1, emin, hrepl, List.nil_append]
    have hmask2 : maskRange (List.replicate 3000 (1000 : ℕ) ++ [700] ++ [4095] ++
        List.replicate 3000 1000) 3001 3002 700 =
        List.replicate 3000 1000 ++ [700] ++ [700] ++
          List.replicate 3000 1000 := by
      have h2 := maskRange_append_mid (List.replicate 3000 (1000 : ℕ) ++ [700])
        [4095] (List.replicate 3000 1000) 700
      have eX : (List.replicate 3000 (1000 : ℕ) ++ [700]).length = 3001 := by
        simp only [List.length_append, List.length_replicate, List.length_cons,
          List.length_nil]
      have eY : ([(4095 : ℕ)]).length = 1 := rfl
      rw [eX, eY, show (3001 + 1 : ℕ) = 3002 from rfl, List.replicate_one] at h2
      exact h2
    rw [hmask2, show (6002 : ℕ) = 6001 + 1 from rfl]
    have hexit : ¬ 3002 + 3000 < (List.replicate 3000 (1000 : ℕ) ++ [700] ++
        [700] ++ List.replicate 3000 1000).length := by
      have : (List.replicate 3000 (1000 : ℕ) ++ [700] ++ [700] ++
          List.replicate 3000 1000).length = 6002 := by
        simp only [List.length_append, List.length_replicate, List.length_cons,
          List.length_nil]
      omega
    rw [scanLoop_exit hexit]

end PC80B
